import Mathlib

/-!
Verification of the signal localization and layout engine of the WiFi
heatmap visualizer (script.js and its near-identical variants).

Numbers are modelled exactly: JavaScript's IEEE doubles are a subset of ℚ,
so every algebraic computation of the source is embedded over ℚ with exact
arithmetic; the transcendental steps (`Math.pow` with fractional exponents,
`Math.sqrt`, `Math.PI`) are embedded over ℝ.  `Math.random()` is modelled
as an explicit oracle argument `u ∈ [0,1)`.
-/

namespace WifiHeatmap

/-- Source helper `lerp(a,b,t) = a + (b-a)*t` (ℚ version). -/
def lerp (a b t : ℚ) : ℚ := a + (b - a) * t

/-- Source helper `lerp` over ℝ, for the real-valued smoothed distance. -/
def lerpR (a b t : ℝ) : ℝ := a + (b - a) * t

/-- Source helper `clamp(v,a,b) = Math.max(a, Math.min(b,v))` over ℝ. -/
def clampR (v a b : ℝ) : ℝ := max a (min b v)

/-- Source helper `rand(a,b) = a + Math.random()*(b-a)`; `u` stands for the
value drawn from `Math.random()`, which lies in `[0,1)`. -/
def rand (a b u : ℚ) : ℚ := a + u * (b - a)

/-- `rssiToDistance` of the trilateration variants (script.js, part_000):
log-distance path loss with exponent 2.4 (5 GHz) / 2.1 (else), reference
RSSI at 1 m of −45 / −40 dBm, clamped to [0.5, 100] meters. -/
noncomputable def rssiToDistance (rssi : ℚ) (band : String) : ℝ :=
  let n : ℚ := if band = "5 GHz" then 24/10 else 21/10
  let P0 : ℚ := if band = "5 GHz" then -45 else -40
  let d : ℝ := (10 : ℝ) ^ (((P0 - rssi) / (10 * n) : ℚ) : ℝ)
  clampR d (1/2) 100

/-- `rssiToDistance` of the radial-layout variants (part_001, part_002):
exponent 2.7 / 2.2, reference RSSI −47 / −42 dBm, same clamp. -/
noncomputable def rssiToDistanceRadial (rssi : ℚ) (band : String) : ℝ :=
  let n : ℚ := if band = "5 GHz" then 27/10 else 22/10
  let P0 : ℚ := if band = "5 GHz" then -47 else -42
  let d : ℝ := (10 : ℝ) ^ (((P0 - rssi) / (10 * n) : ℚ) : ℝ)
  clampR d (1/2) 100

/-- Per-emitter smoothed state `{rssi, dist}`. -/
structure Smooth where
  rssi : ℚ
  dist : ℝ

/-- Seed state used when the smoothed table has no prior entry:
`{rssi: network.rssi, dist: rssiToDistance(network.rssi, network.band)}`
(radial variants). -/
noncomputable def seedSmooth (raw : ℚ) (band : String) : Smooth :=
  ⟨raw, rssiToDistanceRadial raw band⟩

/-- `updateSmoothed` of the radial variants (part_001 lines 200-207,
part_002 lines 217-227): deterministic blend of the previous state toward
the raw reading with coefficient 0.08. -/
noncomputable def updateSmoothed (prev : Option Smooth) (raw : ℚ) (band : String) :
    Smooth :=
  let p := prev.getD (seedSmooth raw band)
  let newRssi := lerp p.rssi raw (8/100)
  ⟨newRssi, lerpR p.dist (rssiToDistanceRadial newRssi band) (8/100)⟩

/-- `updateSmoothed` of the trilateration variants (script.js lines 264-275,
part_000 lines 114-125): the blend target is `network.rssi + rand(-2,2)`,
where `rand` consumes one `Math.random()` draw `u`. -/
noncomputable def updateSmoothedTrilat (prev : Option Smooth) (raw : ℚ)
    (band : String) (u : ℚ) : Smooth :=
  let p := prev.getD ⟨raw, rssiToDistance raw band⟩
  let targetRssi := raw + rand (-2) 2 u
  let newRssi := lerp p.rssi targetRssi (8/100)
  ⟨newRssi, lerpR p.dist (rssiToDistance newRssi band) (8/100)⟩

/-- Repeated calls of the radial `updateSmoothed` with a constant raw
reading, starting from prior state `s0`. -/
noncomputable def iterSmoothed (raw : ℚ) (band : String) (s0 : Smooth) : ℕ → Smooth
  | 0 => s0
  | n + 1 => updateSmoothed (some (iterSmoothed raw band s0 n)) raw band

/-- One planar multilateration observation: observer position `(x, y)` in
meters (the output of the source's `toXY` equirectangular projection,
relative to the first snapshot) and estimated distance `d` to the emitter. -/
structure Obs where
  x : ℚ
  y : ℚ
  d : ℚ

/-- One row of the linearized system built by `trilaterate` from the
reference observation `p1` and a further observation `pi`:
`([2(xi-x1), 2(yi-y1)], (x1²-xi²) + (y1²-yi²) + (di²-d1²))`. -/
def row (p1 pi : Obs) : ℚ × ℚ × ℚ :=
  (2 * (pi.x - p1.x), 2 * (pi.y - p1.y),
    (p1.x ^ 2 - pi.x ^ 2) + (p1.y ^ 2 - pi.y ^ 2) + (pi.d ^ 2 - p1.d ^ 2))

/-- `AtA00 = A.reduce((s,row)=>s+row[0]*row[0],0)`. -/
def ata00 (rows : List (ℚ × ℚ × ℚ)) : ℚ := rows.foldl (fun s r => s + r.1 * r.1) 0

/-- `AtA01 = A.reduce((s,row)=>s+row[0]*row[1],0)`. -/
def ata01 (rows : List (ℚ × ℚ × ℚ)) : ℚ := rows.foldl (fun s r => s + r.1 * r.2.1) 0

/-- `AtA11 = A.reduce((s,row)=>s+row[1]*row[1],0)`. -/
def ata11 (rows : List (ℚ × ℚ × ℚ)) : ℚ :=
  rows.foldl (fun s r => s + r.2.1 * r.2.1) 0

/-- `Atb0 = A.reduce((s,row,i)=>s+row[0]*b[i],0)`. -/
def atb0 (rows : List (ℚ × ℚ × ℚ)) : ℚ := rows.foldl (fun s r => s + r.1 * r.2.2) 0

/-- `Atb1 = A.reduce((s,row,i)=>s+row[1]*b[i],0)`. -/
def atb1 (rows : List (ℚ × ℚ × ℚ)) : ℚ :=
  rows.foldl (fun s r => s + r.2.1 * r.2.2) 0

/-- Determinant of `AᵗA` for a snapshot list (0 when the list is empty). -/
def detAtA (snapshots : List Obs) : ℚ :=
  match snapshots with
  | [] => 0
  | p1 :: rest =>
    let rows := rest.map (row p1)
    ata00 rows * ata11 rows - ata01 rows * ata01 rows

/-- `trilaterate` (script.js lines 308-342, part_000 lines 158-192) after
the `toXY` projection: pairwise-linearized least squares via the normal
equations, with the `< 3` observation guard and the `|det| < 1e-6`
singularity guard. -/
def trilaterate (snapshots : List Obs) : Option (ℚ × ℚ) :=
  if snapshots.length < 3 then none
  else
    match snapshots with
    | [] => none
    | p1 :: rest =>
      let rows := rest.map (row p1)
      let a00 := ata00 rows
      let a01 := ata01 rows
      let a11 := ata11 rows
      let b0 := atb0 rows
      let b1 := atb1 rows
      let det := a00 * a11 - a01 * a01
      if |det| < 1 / 1000000 then none
      else some ((a11 * b0 - a01 * b1) / det, (-a01 * b0 + a00 * b1) / det)

/-- Three points are colinear when the cross product of the two difference
vectors vanishes. -/
def colinear (p q r : ℚ × ℚ) : Prop :=
  (q.1 - p.1) * (r.2 - p.2) - (q.2 - p.2) * (r.1 - p.1) = 0

instance (p q r : ℚ × ℚ) : Decidable (colinear p q r) := by
  unfold colinear; infer_instance

/-- Axis-aligned obstacle rectangle `{x, y, w, h, attenuation}`. -/
structure Rect where
  x : ℚ
  y : ℚ
  w : ℚ
  h : ℚ
  attenuation : ℚ

/-- Source helper `ccw(ax,ay,bx,by,cx,cy) = (cy-ay)*(bx-ax) > (by-ay)*(cx-ax)`. -/
def ccw (ax ay bx byv cx cy : ℚ) : Bool :=
  decide ((cy - ay) * (bx - ax) > (byv - ay) * (cx - ax))

/-- Source `segmentsIntersect`: strict counter-clockwise orientation test. -/
def segmentsIntersect (x1 y1 x2 y2 x3 y3 x4 y4 : ℚ) : Bool :=
  (ccw x1 y1 x3 y3 x4 y4 != ccw x2 y2 x3 y3 x4 y4) &&
    (ccw x1 y1 x2 y2 x3 y3 != ccw x1 y1 x2 y2 x4 y4)

/-- Source `lineIntersectsRect`: the segment against the four rectangle edges. -/
def lineIntersectsRect (x1 y1 x2 y2 : ℚ) (r : Rect) : Bool :=
  [(r.x, r.y, r.x + r.w, r.y),
   (r.x + r.w, r.y, r.x + r.w, r.y + r.h),
   (r.x + r.w, r.y + r.h, r.x, r.y + r.h),
   (r.x, r.y + r.h, r.x, r.y)].any
    (fun e => segmentsIntersect x1 y1 x2 y2 e.1 e.2.1 e.2.2.1 e.2.2.2)

/-- Source `obstacleAttenuationOnPath`: starting from 1.0, multiply by
`(1 - ob.attenuation)` for every obstacle whose rectangle the segment
crosses. -/
def obstacleAttenuationOnPath (x1 y1 x2 y2 : ℚ) (obstacles : List Rect) : ℚ :=
  obstacles.foldl
    (fun atten ob =>
      if lineIntersectsRect x1 y1 x2 y2 ob then atten * (1 - ob.attenuation)
      else atten) 1

/-- One rolling-analysis sample `{t, rssi, dist}` (the stored `meta` field
is UI metadata and does not enter the score). -/
structure Sample where
  t : ℤ
  rssi : ℚ
  dist : ℚ

/-- Winning record built by the scoring pass:
`{bssid, avgRssi, avgDist, score}`. -/
structure Best where
  bssid : String
  avgRssi : ℚ
  avgDist : ℚ
  score : ℚ

/-- `avgRssi = arr.reduce((s,a)=>s+a.rssi,0)/arr.length`. -/
def avgRssi (arr : List Sample) : ℚ := (arr.map Sample.rssi).sum / arr.length

/-- `avgDist = arr.reduce((s,a)=>s+a.dist,0)/arr.length`. -/
def avgDist (arr : List Sample) : ℚ := (arr.map Sample.dist).sum / arr.length

/-- `score = avgRssi - k*avgDist`; the weight `k` is 2 in the trilateration
variants and 1 in the radial variants. -/
def scoreOf (k : ℚ) (arr : List Sample) : ℚ := avgRssi arr - k * avgDist arr

/-- One step of the `analysisWindow.forEach` scoring loop: entries with
fewer than 5 samples are skipped; otherwise the candidate replaces the
current best exactly when its score is strictly greater (or there is no
best yet). -/
def bestStep (k : ℚ) (best : Option Best) (e : String × List Sample) :
    Option Best :=
  if e.2.length < 5 then best
  else
    let cand : Best := ⟨e.1, avgRssi e.2, avgDist e.2, scoreOf k e.2⟩
    match best with
    | none => some cand
    | some b => if cand.score > b.score then some cand else some b

/-- The scoring pass over the rolling window, modelled as a fold over the
window's `(bssid, samples)` entries in iteration order. -/
def bestOf (k : ℚ) (entries : List (String × List Sample)) : Option Best :=
  entries.foldl (bestStep k) none

/-- Scoring of the trilateration variants: `score = avgRssi - 2*avgDist`. -/
def bestOfTrilat (entries : List (String × List Sample)) : Option Best :=
  bestOf 2 entries

/-- Scoring of the radial variants: `score = avgRssi - avgDist`. -/
def bestOfRadial (entries : List (String × List Sample)) : Option Best :=
  bestOf 1 entries

/-- `goldenAngleIncrement = Math.PI * (3 - Math.sqrt(5))`. -/
noncomputable def goldenAngleIncrement : ℝ := Real.pi * (3 - Real.sqrt 5)

/-- One step of the first-appearance angle assignment: if the key is
already in the table, nothing changes; otherwise it is appended with angle
`networkAngles.size * goldenAngleIncrement`. -/
noncomputable def assignStep (t : List (String × ℝ)) (key : String) :
    List (String × ℝ) :=
  if (t.map Prod.fst).contains key then t
  else t ++ [(key, (t.length : ℝ) * goldenAngleIncrement)]

/-- The angle table after a sequence of emitter appearances, starting from
the empty table (as after an explicit reset clears it). -/
noncomputable def assignAngles (keys : List String) : List (String × ℝ) :=
  keys.foldl assignStep []

/-- One display node of the radial layout (position only; the repulsion
relaxation reads and writes nothing else). -/
structure Pt where
  x : ℝ
  y : ℝ

instance : Inhabited Pt := ⟨⟨0, 0⟩⟩

/-- One pairwise repulsion adjustment (the body of the inner `j` loop of
the relaxation): nodes `i` and `j` closer than `minSeparation = 110` are
pushed apart along their connecting line by equal and opposite offsets
scaled by `repulsionStrength = 0.6` and split `0.5`/`0.5`. -/
noncomputable def relaxPair (nodes : List Pt) (i j : ℕ) : List Pt :=
  let nA := nodes.getD i default
  let nB := nodes.getD j default
  let dx := nB.x - nA.x
  let dy := nB.y - nA.y
  let dSq := dx * dx + dy * dy
  if 0 < dSq ∧ dSq < 110 * 110 then
    let d := Real.sqrt dSq
    let force := (110 - d) / d * (6 / 10)
    let moveX := dx * force * (1 / 2)
    let moveY := dy * force * (1 / 2)
    (nodes.set i ⟨nA.x - moveX, nA.y - moveY⟩).set j
      ⟨nB.x + moveX, nB.y + moveY⟩
  else nodes

/-- All index pairs `(i, j)` with `i < j < n`, in the iteration order of the
nested `for` loops. -/
def pairList (n : ℕ) : List (ℕ × ℕ) :=
  (List.range n).flatMap fun i =>
    ((List.range n).filter fun j => i < j).map fun j => (i, j)

/-- One iteration of the repulsion relaxation: every `i < j` pair in order. -/
noncomputable def relaxOnce (nodes : List Pt) : List Pt :=
  (pairList nodes.length).foldl (fun acc p => relaxPair acc p.1 p.2) nodes

/-- `k` iterations of the relaxation. -/
noncomputable def relaxIter : ℕ → List Pt → List Pt
  | 0, nodes => nodes
  | n + 1, nodes => relaxIter n (relaxOnce nodes)

/-- The full repulsion relaxation of the source: `iterations = 5`. -/
noncomputable def relaxNodes (nodes : List Pt) : List Pt := relaxIter 5 nodes

/-- Statement-side predicate: the winning record `b` is exactly the record
the scoring pass computes from the window entry `e` (which must hold at
least 5 samples). -/
def FromEntry (k : ℚ) (b : Best) (e : String × List Sample) : Prop :=
  e.1 = b.bssid ∧ 5 ≤ e.2.length ∧ b.avgRssi = avgRssi e.2 ∧
    b.avgDist = avgDist e.2 ∧ b.score = scoreOf k e.2

/-! ## Theorems -/

/-- C1: the round-trip property fails on the code.  The observations
`(0,0) d=1`, `(2,0) d=1`, `(1,2) d=2` are exactly the noiseless distances
to the true offset `(1,0)` (first three conjuncts), their geometry is
non-colinear, the determinant guard passes — yet `trilaterate` returns
`some (-1, 0)`, the point-reflection of the true offset, instead of
`some (1, 0)`.  The sign slip is in the `b`-vector: the source computes
`(x1²-xi²)+(y1²-yi²)+(di²-d1²)`, the negation of the right-hand side that
the linearization `2(xi-x1)·x + 2(yi-y1)·y = (xi²-x1²)+(yi²-y1²)+(d1²-di²)`
requires, so the solver solves for the negated position. -/
theorem c1_trilaterate_round_trip_fails :
    ((1 : ℚ) ^ 2 = (0 - 1) ^ 2 + (0 - 0) ^ 2) ∧
    ((1 : ℚ) ^ 2 = (2 - 1) ^ 2 + (0 - 0) ^ 2) ∧
    ((2 : ℚ) ^ 2 = (1 - 1) ^ 2 + (2 - 0) ^ 2) ∧
    ¬ colinear (0, 0) (2, 0) (1, 2) ∧
    (1 / 1000000 : ℚ) ≤ |detAtA [⟨0, 0, 1⟩, ⟨2, 0, 1⟩, ⟨1, 2, 2⟩]| ∧
    trilaterate [⟨0, 0, 1⟩, ⟨2, 0, 1⟩, ⟨1, 2, 2⟩] = some (-1, 0) ∧
    (some ((-1 : ℚ), (0 : ℚ)) ≠ some ((1 : ℚ), (0 : ℚ))) := by
  refine ⟨by norm_num, by norm_num, by norm_num, by norm_num [colinear], ?_, ?_,
    by intro h; rw [Option.some.injEq, Prod.mk.injEq] at h; exact absurd h.1 (by norm_num)⟩
  · rw [show detAtA [⟨0, 0, 1⟩, ⟨2, 0, 1⟩, ⟨1, 2, 2⟩] = 256 from by
      norm_num [detAtA, ata00, ata01, ata11, row, List.foldl_cons, List.foldl_nil]]
    rw [abs_of_pos (by norm_num)]
    norm_num
  · norm_num [trilaterate, ata00, ata01, ata11, atb0, atb1, row,
      List.foldl_cons, List.foldl_nil]

/-- Supporting analysis for the sign slip: for EVERY noiseless
3-observation input that passes the determinant guard, the solver returns
the negation of the true offset — the error is systematic, not specific to
one input.  (For `(tx, ty) = (0, 0)` the two coincide, which is why casual
testing at the origin would not reveal it.) -/
theorem trilaterate_returns_negated_offset (o1 o2 o3 : Obs) (tx ty : ℚ)
    (h1 : o1.d ^ 2 = (o1.x - tx) ^ 2 + (o1.y - ty) ^ 2)
    (h2 : o2.d ^ 2 = (o2.x - tx) ^ 2 + (o2.y - ty) ^ 2)
    (h3 : o3.d ^ 2 = (o3.x - tx) ^ 2 + (o3.y - ty) ^ 2)
    (hdet : ¬ |detAtA [o1, o2, o3]| < 1 / 1000000) :
    trilaterate [o1, o2, o3] = some (-tx, -ty) := by
  have hb2 : (o1.x ^ 2 - o2.x ^ 2) + (o1.y ^ 2 - o2.y ^ 2) + (o2.d ^ 2 - o1.d ^ 2)
      = -(2 * (o2.x - o1.x) * tx + 2 * (o2.y - o1.y) * ty) := by
    linear_combination h2 - h1
  have hb3 : (o1.x ^ 2 - o3.x ^ 2) + (o1.y ^ 2 - o3.y ^ 2) + (o3.d ^ 2 - o1.d ^ 2)
      = -(2 * (o3.x - o1.x) * tx + 2 * (o3.y - o1.y) * ty) := by
    linear_combination h3 - h1
  simp only [detAtA, ata00, ata01, ata11, row, List.map_cons, List.map_nil,
    List.foldl_cons, List.foldl_nil] at hdet
  simp only [trilaterate, ata00, ata01, ata11, atb0, atb1, row, List.map_cons,
    List.map_nil, List.foldl_cons, List.foldl_nil, List.length_cons,
    List.length_nil]
  rw [if_neg (by norm_num)]
  rw [if_neg hdet]
  have hdne : (0 + 2 * (o2.x - o1.x) * (2 * (o2.x - o1.x)) +
        2 * (o3.x - o1.x) * (2 * (o3.x - o1.x))) *
      (0 + 2 * (o2.y - o1.y) * (2 * (o2.y - o1.y)) +
        2 * (o3.y - o1.y) * (2 * (o3.y - o1.y))) -
      (0 + 2 * (o2.x - o1.x) * (2 * (o2.y - o1.y)) +
        2 * (o3.x - o1.x) * (2 * (o3.y - o1.y))) *
      (0 + 2 * (o2.x - o1.x) * (2 * (o2.y - o1.y)) +
        2 * (o3.x - o1.x) * (2 * (o3.y - o1.y))) ≠ 0 := by
    intro h0
    rw [h0] at hdet
    simp at hdet
  rw [Option.some.injEq, Prod.mk.injEq]
  refine ⟨?_, ?_⟩
  · rw [div_eq_iff hdne, hb2, hb3]
    ring
  · rw [div_eq_iff hdne, hb2, hb3]
    ring

/-- C2: `trilaterate` returns `none` exactly when fewer than 3 observations
are supplied or `|det(AᵗA)| < 1e-6`; in every other case it returns a
position. -/
theorem c2_solver_null_policy (obs : List Obs) :
    (trilaterate obs = none ↔
      obs.length < 3 ∨ |detAtA obs| < 1 / 1000000) ∧
    (¬ (obs.length < 3 ∨ |detAtA obs| < 1 / 1000000) →
      ∃ p, trilaterate obs = some p) := by
  have key : trilaterate obs = none ↔
      obs.length < 3 ∨ |detAtA obs| < 1 / 1000000 := by
    match obs with
    | [] => simp [trilaterate]
    | p1 :: rest =>
      simp only [trilaterate, detAtA]
      split_ifs with h1 h2
      · exact iff_of_true rfl (Or.inl (by simpa using h1))
      · exact iff_of_true rfl (Or.inr h2)
      · exact iff_of_false (by simp) (not_or.mpr ⟨by simpa using h1, h2⟩)
  refine ⟨key, fun h => ?_⟩
  rcases hopt : trilaterate obs with _ | p
  · exact absurd (key.mp hopt) h
  · exact ⟨p, rfl⟩

/-- C2 witness: on the concrete non-degenerate observation set of C1's
geometry, neither disjunct holds and the solver does return a position. -/
theorem c2_solver_null_policy_witness :
    ¬ (([⟨0, 0, 1⟩, ⟨2, 0, 1⟩, ⟨1, 2, 2⟩] : List Obs).length < 3 ∨
        |detAtA [⟨0, 0, 1⟩, ⟨2, 0, 1⟩, ⟨1, 2, 2⟩]| < 1 / 1000000) ∧
    ∃ p, trilaterate [⟨0, 0, 1⟩, ⟨2, 0, 1⟩, ⟨1, 2, 2⟩] = some p := by
  have hdis : ¬ (([⟨0, 0, 1⟩, ⟨2, 0, 1⟩, ⟨1, 2, 2⟩] : List Obs).length < 3 ∨
      |detAtA [⟨0, 0, 1⟩, ⟨2, 0, 1⟩, ⟨1, 2, 2⟩]| < 1 / 1000000) := by
    rw [show detAtA [⟨0, 0, 1⟩, ⟨2, 0, 1⟩, ⟨1, 2, 2⟩] = 256 from by
      norm_num [detAtA, ata00, ata01, ata11, row, List.foldl_cons, List.foldl_nil]]
    rw [abs_of_pos (by norm_num)]
    norm_num
  exact ⟨hdis, (c2_solver_null_policy [⟨0, 0, 1⟩, ⟨2, 0, 1⟩, ⟨1, 2, 2⟩]).2 hdis⟩

/-- Every clamped value lies in `[1/2, 100]`. -/
lemma clampR_mem (v : ℝ) :
    1 / 2 ≤ clampR v (1 / 2) 100 ∧ clampR v (1 / 2) 100 ≤ 100 :=
  ⟨le_max_left _ _, max_le (by norm_num) (min_le_left _ _)⟩

/-- Monotonicity of the clamped power law in the (rational) exponent. -/
lemma clamp_rpow_mono (q1 q2 : ℚ) (h : q1 ≤ q2) :
    clampR ((10 : ℝ) ^ ((q1 : ℚ) : ℝ)) (1 / 2) 100 ≤
      clampR ((10 : ℝ) ^ ((q2 : ℚ) : ℝ)) (1 / 2) 100 := by
  have hc : ((q1 : ℚ) : ℝ) ≤ ((q2 : ℚ) : ℝ) := by exact_mod_cast h
  have hp : (10 : ℝ) ^ ((q1 : ℚ) : ℝ) ≤ (10 : ℝ) ^ ((q2 : ℚ) : ℝ) :=
    Real.rpow_le_rpow_of_exponent_le (by norm_num) hc
  exact max_le_max le_rfl (min_le_min le_rfl hp)

/-- Unfolding equation for the trilateration-variant distance model. -/
lemma rssiToDistance_eq (rssi : ℚ) (band : String) :
    rssiToDistance rssi band =
      clampR ((10 : ℝ) ^
        ((((if band = "5 GHz" then (-45 : ℚ) else -40) - rssi) /
          (10 * (if band = "5 GHz" then (24 / 10 : ℚ) else 21 / 10)) : ℚ) : ℝ))
        (1 / 2) 100 := rfl

/-- Unfolding equation for the radial-variant distance model. -/
lemma rssiToDistanceRadial_eq (rssi : ℚ) (band : String) :
    rssiToDistanceRadial rssi band =
      clampR ((10 : ℝ) ^
        ((((if band = "5 GHz" then (-47 : ℚ) else -42) - rssi) /
          (10 * (if band = "5 GHz" then (27 / 10 : ℚ) else 22 / 10)) : ℚ) : ℝ))
        (1 / 2) 100 := rfl

/-- C3: for all signals in [-90,-30] and every band string (including the
unrecognized-band fallback), both variants of `rssiToDistance` stay within
[0.5, 100] meters and are monotonically non-increasing in the signal. -/
theorem c3_distance_model_bounds_mono (band : String) (s1 s2 : ℚ)
    (hlo1 : -90 ≤ s1) (hhi1 : s1 ≤ -30) (hlo2 : -90 ≤ s2) (hhi2 : s2 ≤ -30)
    (h12 : s1 ≤ s2) :
    (1 / 2 ≤ rssiToDistance s1 band ∧ rssiToDistance s1 band ≤ 100) ∧
    rssiToDistance s2 band ≤ rssiToDistance s1 band ∧
    (1 / 2 ≤ rssiToDistanceRadial s1 band ∧ rssiToDistanceRadial s1 band ≤ 100) ∧
    rssiToDistanceRadial s2 band ≤ rssiToDistanceRadial s1 band := by
  rw [rssiToDistance_eq s1 band, rssiToDistance_eq s2 band,
    rssiToDistanceRadial_eq s1 band, rssiToDistanceRadial_eq s2 band]
  by_cases hb : band = "5 GHz"
  · simp only [if_pos hb]
    exact ⟨clampR_mem _, clamp_rpow_mono _ _ (by gcongr),
      clampR_mem _, clamp_rpow_mono _ _ (by gcongr)⟩
  · simp only [if_neg hb]
    exact ⟨clampR_mem _, clamp_rpow_mono _ _ (by gcongr),
      clampR_mem _, clamp_rpow_mono _ _ (by gcongr)⟩

/-- C3 witness: concrete instantiation at an unrecognized band string and
signals −70 ≤ −50 dBm. -/
theorem c3_distance_model_bounds_mono_witness :
    (1 / 2 ≤ rssiToDistance (-70) "6 GHz" ∧ rssiToDistance (-70) "6 GHz" ≤ 100) ∧
    rssiToDistance (-50) "6 GHz" ≤ rssiToDistance (-70) "6 GHz" ∧
    (1 / 2 ≤ rssiToDistanceRadial (-70) "6 GHz" ∧
      rssiToDistanceRadial (-70) "6 GHz" ≤ 100) ∧
    rssiToDistanceRadial (-50) "6 GHz" ≤ rssiToDistanceRadial (-70) "6 GHz" :=
  c3_distance_model_bounds_mono "6 GHz" (-70) (-50) (by norm_num) (by norm_num)
    (by norm_num) (by norm_num) (by norm_num)

/-- The attenuation fold equals the initial value times the product over
the crossed obstacles. -/
lemma attenuation_foldl_eq (x1 y1 x2 y2 : ℚ) :
    ∀ (obs : List Rect) (a : ℚ),
      obs.foldl
        (fun atten ob =>
          if lineIntersectsRect x1 y1 x2 y2 ob then atten * (1 - ob.attenuation)
          else atten) a =
      a * ((obs.filter fun ob => lineIntersectsRect x1 y1 x2 y2 ob).map
        fun ob => 1 - ob.attenuation).prod := by
  intro obs
  induction obs with
  | nil => intro a; simp
  | cons ob rest ih =>
    intro a
    by_cases h : lineIntersectsRect x1 y1 x2 y2 ob <;> simp [h, ih] <;> ring

/-- C4: `obstacleAttenuationOnPath` is exactly the product of
`(1 - attenuation)` over the obstacles the segment crosses; a segment
crossing none yields exactly 1; and the result is invariant under
reordering the obstacle list. -/
theorem c4_attenuation_is_product (x1 y1 x2 y2 : ℚ) (obs : List Rect) :
    obstacleAttenuationOnPath x1 y1 x2 y2 obs =
      ((obs.filter fun ob => lineIntersectsRect x1 y1 x2 y2 ob).map
        fun ob => 1 - ob.attenuation).prod ∧
    ((∀ ob ∈ obs, lineIntersectsRect x1 y1 x2 y2 ob = false) →
      obstacleAttenuationOnPath x1 y1 x2 y2 obs = 1) ∧
    ∀ obs' : List Rect, obs.Perm obs' →
      obstacleAttenuationOnPath x1 y1 x2 y2 obs =
        obstacleAttenuationOnPath x1 y1 x2 y2 obs' := by
  have key : ∀ l : List Rect,
      obstacleAttenuationOnPath x1 y1 x2 y2 l =
        ((l.filter fun ob => lineIntersectsRect x1 y1 x2 y2 ob).map
          fun ob => 1 - ob.attenuation).prod := by
    intro l
    simpa using attenuation_foldl_eq x1 y1 x2 y2 l 1
  refine ⟨key obs, fun hnone => ?_, fun obs' hperm => ?_⟩
  · rw [key]
    have hfil : obs.filter (fun ob => lineIntersectsRect x1 y1 x2 y2 ob) = [] := by
      simp only [List.filter_eq_nil_iff]
      intro ob hob
      simp [hnone ob hob]
    rw [hfil]
    simp
  · rw [key, key]
    exact List.Perm.prod_eq (List.Perm.map _ (List.Perm.filter _ hperm))

/-- C4 witness: the horizontal segment from (0,0) to (20,0) crosses the
rectangle [5,15]×[-5,5] (attenuation 0.4) and misses [5,15]×[10,20]
(attenuation 0.5): the factor is exactly 0.6, a non-crossing list yields
exactly 1, and swapping the obstacles does not change the result. -/
theorem c4_attenuation_is_product_witness :
    obstacleAttenuationOnPath 0 0 20 0 [⟨5, -5, 10, 10, 2/5⟩, ⟨5, 10, 10, 10, 1/2⟩] = 3/5 ∧
    obstacleAttenuationOnPath 0 0 20 0 [⟨5, 10, 10, 10, 1/2⟩] = 1 ∧
    obstacleAttenuationOnPath 0 0 20 0 [⟨5, -5, 10, 10, 2/5⟩, ⟨5, 10, 10, 10, 1/2⟩] =
      obstacleAttenuationOnPath 0 0 20 0 [⟨5, 10, 10, 10, 1/2⟩, ⟨5, -5, 10, 10, 2/5⟩] := by
  have h1 := (c4_attenuation_is_product 0 0 20 0
    [⟨5, -5, 10, 10, 2/5⟩, ⟨5, 10, 10, 10, 1/2⟩]).1
  have h2 := (c4_attenuation_is_product 0 0 20 0 [⟨5, 10, 10, 10, 1/2⟩]).2.1
  have h3 := (c4_attenuation_is_product 0 0 20 0
    [⟨5, -5, 10, 10, 2/5⟩, ⟨5, 10, 10, 10, 1/2⟩]).2.2
    [⟨5, 10, 10, 10, 1/2⟩, ⟨5, -5, 10, 10, 2/5⟩]
    (List.Perm.swap (⟨5, 10, 10, 10, 1/2⟩ : Rect) (⟨5, -5, 10, 10, 2/5⟩ : Rect) [])
  refine ⟨?_, h2 ?_, h3⟩
  · rw [h1]
    norm_num [lineIntersectsRect, segmentsIntersect, ccw, List.filter]
  · intro ob hob
    rw [List.mem_singleton] at hob
    subst hob
    norm_num [lineIntersectsRect, segmentsIntersect, ccw]

/-- A segment test against one edge is false as soon as both segment
endpoints give the same strict orientation against that edge. -/
lemma segmentsIntersect_eq_false_of_same_side {x1 y1 x2 y2 x3 y3 x4 y4 : ℚ}
    (h : ccw x1 y1 x3 y3 x4 y4 = ccw x2 y2 x3 y3 x4 y4) :
    segmentsIntersect x1 y1 x2 y2 x3 y3 x4 y4 = false := by
  simp [segmentsIntersect, h]

/-- Reduction of the rectangle test to its four edge tests. -/
lemma lineIntersectsRect_eq (x1 y1 x2 y2 : ℚ) (r : Rect) :
    lineIntersectsRect x1 y1 x2 y2 r =
      (segmentsIntersect x1 y1 x2 y2 r.x r.y (r.x + r.w) r.y ||
       segmentsIntersect x1 y1 x2 y2 (r.x + r.w) r.y (r.x + r.w) (r.y + r.h) ||
       segmentsIntersect x1 y1 x2 y2 (r.x + r.w) (r.y + r.h) r.x (r.y + r.h) ||
       segmentsIntersect x1 y1 x2 y2 r.x (r.y + r.h) r.x r.y) := by
  simp [lineIntersectsRect, Bool.or_assoc]

/-- A segment whose endpoints are both strictly inside the rectangle
crosses none of the four edges. -/
lemma lineIntersectsRect_inside_false (r : Rect) (x1 y1 x2 y2 : ℚ)
    (hw : 0 < r.w) (hh : 0 < r.h)
    (h1x : r.x < x1) (h1X : x1 < r.x + r.w) (h1y : r.y < y1) (h1Y : y1 < r.y + r.h)
    (h2x : r.x < x2) (h2X : x2 < r.x + r.w) (h2y : r.y < y2) (h2Y : y2 < r.y + r.h) :
    lineIntersectsRect x1 y1 x2 y2 r = false := by
  rw [lineIntersectsRect_eq]
  have top : ∀ px py : ℚ, r.y < py → ccw px py r.x r.y (r.x + r.w) r.y = true := by
    intro px py hpy
    simp only [ccw, decide_eq_true_eq]
    nlinarith [mul_pos hw (sub_pos.mpr hpy)]
  have rgt : ∀ px py : ℚ, px < r.x + r.w →
      ccw px py (r.x + r.w) r.y (r.x + r.w) (r.y + r.h) = true := by
    intro px py hpx
    simp only [ccw, decide_eq_true_eq]
    nlinarith [mul_pos hh (sub_pos.mpr hpx)]
  have bot : ∀ px py : ℚ, py < r.y + r.h →
      ccw px py (r.x + r.w) (r.y + r.h) r.x (r.y + r.h) = true := by
    intro px py hpy
    simp only [ccw, decide_eq_true_eq]
    nlinarith [mul_pos hw (sub_pos.mpr hpy)]
  have lft : ∀ px py : ℚ, r.x < px →
      ccw px py r.x (r.y + r.h) r.x r.y = true := by
    intro px py hpx
    simp only [ccw, decide_eq_true_eq]
    nlinarith [mul_pos hh (sub_pos.mpr hpx)]
  rw [segmentsIntersect_eq_false_of_same_side
      ((top x1 y1 h1y).trans (top x2 y2 h2y).symm),
    segmentsIntersect_eq_false_of_same_side
      ((rgt x1 y1 h1X).trans (rgt x2 y2 h2X).symm),
    segmentsIntersect_eq_false_of_same_side
      ((bot x1 y1 h1Y).trans (bot x2 y2 h2Y).symm),
    segmentsIntersect_eq_false_of_same_side
      ((lft x1 y1 h1x).trans (lft x2 y2 h2x).symm)]
  rfl

/-- A segment lying on the top edge's line, strictly inside that edge's
horizontal span, crosses none of the four edges. -/
lemma lineIntersectsRect_top_edge_interior_false (r : Rect) (x1 x2 : ℚ)
    (hw : 0 < r.w) (hh : 0 < r.h)
    (h1 : r.x < x1) (h1' : x1 < r.x + r.w) (h2 : r.x < x2) (h2' : x2 < r.x + r.w) :
    lineIntersectsRect x1 r.y x2 r.y r = false := by
  rw [lineIntersectsRect_eq]
  have top : ∀ px : ℚ, ccw px r.y r.x r.y (r.x + r.w) r.y = false := by
    intro px
    simp only [ccw, decide_eq_false_iff_not]
    intro hcon
    nlinarith [hcon]
  have rgt : ∀ px : ℚ, px < r.x + r.w →
      ccw px r.y (r.x + r.w) r.y (r.x + r.w) (r.y + r.h) = true := by
    intro px hpx
    simp only [ccw, decide_eq_true_eq]
    nlinarith [mul_pos hh (sub_pos.mpr hpx)]
  have bot : ∀ px : ℚ, ccw px r.y (r.x + r.w) (r.y + r.h) r.x (r.y + r.h) = true := by
    intro px
    simp only [ccw, decide_eq_true_eq]
    nlinarith [mul_pos hw hh]
  have lft : ∀ px : ℚ, r.x < px →
      ccw px r.y r.x (r.y + r.h) r.x r.y = true := by
    intro px hpx
    simp only [ccw, decide_eq_true_eq]
    nlinarith [mul_pos hh (sub_pos.mpr hpx)]
  rw [segmentsIntersect_eq_false_of_same_side ((top x1).trans (top x2).symm),
    segmentsIntersect_eq_false_of_same_side
      ((rgt x1 h1').trans (rgt x2 h2').symm),
    segmentsIntersect_eq_false_of_same_side ((bot x1).trans (bot x2).symm),
    segmentsIntersect_eq_false_of_same_side
      ((lft x1 h1).trans (lft x2 h2).symm)]
  rfl

/-- C9 (amended): a segment strictly inside the rectangle is never counted
as crossing, and a segment collinear with the top edge that stays strictly
within the edge's span is never counted, so `obstacleAttenuationOnPath`
applies no factor for such segments.  (The original claim's blanket
"collinear touches are never counted" fails: see the counterexample, a
segment collinear with the top edge passing through a corner is counted.) -/
theorem c9_inside_and_edge_interior_not_counted (r : Rect) (x1 y1 x2 y2 : ℚ)
    (hw : 0 < r.w) (hh : 0 < r.h) :
    ((r.x < x1 ∧ x1 < r.x + r.w ∧ r.y < y1 ∧ y1 < r.y + r.h ∧
      r.x < x2 ∧ x2 < r.x + r.w ∧ r.y < y2 ∧ y2 < r.y + r.h) →
      lineIntersectsRect x1 y1 x2 y2 r = false ∧
      obstacleAttenuationOnPath x1 y1 x2 y2 [r] = 1) ∧
    ((y1 = r.y ∧ y2 = r.y ∧ r.x < x1 ∧ x1 < r.x + r.w ∧
      r.x < x2 ∧ x2 < r.x + r.w) →
      lineIntersectsRect x1 y1 x2 y2 r = false ∧
      obstacleAttenuationOnPath x1 y1 x2 y2 [r] = 1) := by
  constructor
  · rintro ⟨a1, a2, a3, a4, a5, a6, a7, a8⟩
    have hf := lineIntersectsRect_inside_false r x1 y1 x2 y2 hw hh a1 a2 a3 a4 a5 a6 a7 a8
    exact ⟨hf, by simp [obstacleAttenuationOnPath, hf]⟩
  · rintro ⟨e1, e2, a1, a2, a3, a4⟩
    subst e1; subst e2
    have hf := lineIntersectsRect_top_edge_interior_false r x1 x2 hw hh a1 a2 a3 a4
    exact ⟨hf, by simp [obstacleAttenuationOnPath, hf]⟩

/-- C9 witness: for the rectangle [0,10]×[0,10], the inside segment
(1,1)–(2,3) and the edge-interior collinear segment (1,0)–(9,0) are both
uncounted and leave the attenuation factor at 1. -/
theorem c9_inside_and_edge_interior_not_counted_witness :
    lineIntersectsRect 1 1 2 3 ⟨0, 0, 10, 10, 1/2⟩ = false ∧
    obstacleAttenuationOnPath 1 1 2 3 [⟨0, 0, 10, 10, 1/2⟩] = 1 ∧
    lineIntersectsRect 1 0 9 0 ⟨0, 0, 10, 10, 1/2⟩ = false ∧
    obstacleAttenuationOnPath 1 0 9 0 [⟨0, 0, 10, 10, 1/2⟩] = 1 := by
  have t1 := (c9_inside_and_edge_interior_not_counted ⟨0, 0, 10, 10, 1/2⟩ 1 1 2 3
    (by norm_num) (by norm_num)).1 (by norm_num)
  have t2 := (c9_inside_and_edge_interior_not_counted ⟨0, 0, 10, 10, 1/2⟩ 1 0 9 0
    (by norm_num) (by norm_num)).2 (by norm_num)
  exact ⟨t1.1, t1.2, t2.1, t2.2⟩

/-- C9 counterexample: the segment (−1,0)–(1,0) lies on the line of the
top edge of the rectangle [0,10]×[0,10] and meets the closed rectangle
only in boundary points of that edge (its y-coordinate equals `r.y`
throughout), i.e. it only touches an edge/corner collinearly — yet
`lineIntersectsRect` counts it (the strict orientation test against the
left edge fires as the segment passes through the corner), and
`obstacleAttenuationOnPath` applies the factor 0.5 ≠ 1. -/
theorem c9_collinear_touch_is_counted :
    lineIntersectsRect (-1) 0 1 0 ⟨0, 0, 10, 10, 1/2⟩ = true ∧
    obstacleAttenuationOnPath (-1) 0 1 0 [⟨0, 0, 10, 10, 1/2⟩] = 1/2 ∧
    ((1 : ℚ)/2 ≠ 1) := by
  refine ⟨?_, ?_, by norm_num⟩ <;>
    norm_num [obstacleAttenuationOnPath, lineIntersectsRect, segmentsIntersect, ccw]

/-- Case analysis of one scoring step: entries with short windows are
skipped; otherwise the step yields a record that is the old best or the
candidate, never scores below the old best, and never scores below the
candidate. -/
lemma bestStep_cases (k : ℚ) (acc : Option Best) (e : String × List Sample) :
    (e.2.length < 5 ∧ bestStep k acc e = acc) ∨
    (5 ≤ e.2.length ∧
      ∃ b', bestStep k acc e = some b' ∧
        (acc = some b' ∨ FromEntry k b' e) ∧
        (∀ a, acc = some a → a.score ≤ b'.score) ∧
        scoreOf k e.2 ≤ b'.score) := by
  by_cases h : e.2.length < 5
  · exact Or.inl ⟨h, by simp [bestStep, h]⟩
  · right
    refine ⟨not_lt.mp h, ?_⟩
    match acc with
    | none =>
      exact ⟨⟨e.1, avgRssi e.2, avgDist e.2, scoreOf k e.2⟩, by simp [bestStep, h],
        Or.inr ⟨rfl, not_lt.mp h, rfl, rfl, rfl⟩, by simp, le_refl _⟩
    | some b0 =>
      by_cases hs : scoreOf k e.2 > b0.score
      · refine ⟨⟨e.1, avgRssi e.2, avgDist e.2, scoreOf k e.2⟩,
          by simp [bestStep, h, hs], Or.inr ⟨rfl, not_lt.mp h, rfl, rfl, rfl⟩,
          ?_, le_refl _⟩
        intro a ha
        rw [Option.some.injEq] at ha
        subst ha
        exact le_of_lt hs
      · refine ⟨b0, by simp [bestStep, h, hs], Or.inl rfl, ?_, le_of_not_lt hs⟩
        intro a ha
        rw [Option.some.injEq] at ha
        subst ha
        exact le_refl _

/-- Fold invariant of the scoring pass: a `none` result means the
accumulator was `none` and every processed entry was short; a `some b`
result is the accumulator or a qualifying entry's record, dominates the
accumulator's score, and dominates the score of every qualifying entry. -/
lemma bestOf_go (k : ℚ) (entries : List (String × List Sample)) :
    ∀ acc : Option Best,
      (entries.foldl (bestStep k) acc = none →
        acc = none ∧ ∀ e ∈ entries, e.2.length < 5) ∧
      (∀ b, entries.foldl (bestStep k) acc = some b →
        (acc = some b ∨ ∃ e ∈ entries, FromEntry k b e) ∧
        (∀ a, acc = some a → a.score ≤ b.score) ∧
        (∀ e ∈ entries, 5 ≤ e.2.length → scoreOf k e.2 ≤ b.score)) := by
  induction entries with
  | nil =>
    intro acc
    refine ⟨fun h => ⟨h, by simp⟩, fun b hb => ⟨Or.inl hb, fun a ha => ?_, by simp⟩⟩
    rw [List.foldl_nil, ha, Option.some.injEq] at hb
    subst hb
    exact le_refl _
  | cons e rest ih =>
    intro acc
    rcases bestStep_cases k acc e with ⟨hshort, heq⟩ |
      ⟨hlong, b', hstep, horig, hmax, hscore⟩
    · constructor
      · intro hnone
        rw [List.foldl_cons, heq] at hnone
        obtain ⟨hacc, hall⟩ := (ih acc).1 hnone
        refine ⟨hacc, fun e' he' => ?_⟩
        rcases List.mem_cons.mp he' with rfl | h'
        · exact hshort
        · exact hall _ h'
      · intro b hb
        rw [List.foldl_cons, heq] at hb
        obtain ⟨ho, hm, hs⟩ := (ih acc).2 b hb
        refine ⟨?_, hm, ?_⟩
        · rcases ho with h' | ⟨e', he', hf⟩
          · exact Or.inl h'
          · exact Or.inr ⟨e', List.mem_cons_of_mem _ he', hf⟩
        · intro e' he' hlen
          rcases List.mem_cons.mp he' with rfl | h'
          · omega
          · exact hs _ h' hlen
    · constructor
      · intro hnone
        rw [List.foldl_cons, hstep] at hnone
        obtain ⟨hacc', _⟩ := (ih (some b')).1 hnone
        exact absurd hacc' (by simp)
      · intro b hb
        rw [List.foldl_cons, hstep] at hb
        obtain ⟨ho, hm, hs⟩ := (ih (some b')).2 b hb
        have hb'le : b'.score ≤ b.score := hm b' rfl
        constructor
        · rcases ho with hbb | ⟨e', he', hf⟩
          · rw [Option.some.injEq] at hbb
            subst hbb
            rcases horig with hac | hfe
            · exact Or.inl hac
            · exact Or.inr ⟨e, List.mem_cons_self _ _, hfe⟩
          · exact Or.inr ⟨e', List.mem_cons_of_mem _ he', hf⟩
        · refine ⟨fun a ha => le_trans (hmax a ha) hb'le, ?_⟩
          intro e' he' hlen
          rcases List.mem_cons.mp he' with rfl | h'
          · exact le_trans hscore hb'le
          · exact hs _ h' hlen

/-- C5: the scoring pass considers exactly the emitters whose window has at
least 5 samples; each considered emitter is scored `avgSignal − k·avgDist`
(with `k = 2` in the trilateration variants and `k = 1` in the radial
variants); the recommendation is a qualifying emitter of maximal score;
and an emitter with fewer than 5 samples never appears in the result. -/
theorem c5_scoring_window_threshold (k : ℚ) (entries : List (String × List Sample)) :
    bestOfTrilat entries = bestOf 2 entries ∧
    bestOfRadial entries = bestOf 1 entries ∧
    (bestOf k entries = none → ∀ e ∈ entries, e.2.length < 5) ∧
    ∀ b, bestOf k entries = some b →
      (∃ e ∈ entries, e.1 = b.bssid ∧ 5 ≤ e.2.length ∧
        b.avgRssi = avgRssi e.2 ∧ b.avgDist = avgDist e.2 ∧
        b.score = avgRssi e.2 - k * avgDist e.2) ∧
      ∀ e ∈ entries, 5 ≤ e.2.length → avgRssi e.2 - k * avgDist e.2 ≤ b.score := by
  refine ⟨rfl, rfl, fun h => ((bestOf_go k entries none).1 h).2, fun b hb => ?_⟩
  obtain ⟨ho, _, hs⟩ := (bestOf_go k entries none).2 b hb
  rcases ho with h' | ⟨e, he, hf⟩
  · exact absurd h' (by simp)
  · exact ⟨⟨e, he, hf.1, hf.2.1, hf.2.2.1, hf.2.2.2.1, hf.2.2.2.2⟩,
      fun e' he' hl => hs e' he' hl⟩

/-- C5 witness: a window with five samples averaging −40 dBm / 5 m wins
with score −50 under `k = 2`, while a single-sample window whose score
would be 0 (the highest) is excluded; every qualifying entry scores at
most −50. -/
theorem c5_scoring_window_threshold_witness :
    bestOf 2 [("a", List.replicate 5 ⟨0, -40, 5⟩), ("b", [⟨0, 0, 0⟩])] =
      some ⟨"a", -40, 5, -50⟩ ∧
    ∀ e ∈ ([("a", List.replicate 5 ⟨0, -40, 5⟩), ("b", [⟨0, 0, 0⟩])] :
        List (String × List Sample)),
      5 ≤ e.2.length → avgRssi e.2 - 2 * avgDist e.2 ≤ (-50 : ℚ) := by
  have heval : bestOf 2 [("a", List.replicate 5 ⟨0, -40, 5⟩), ("b", [⟨0, 0, 0⟩])] =
      some ⟨"a", -40, 5, -50⟩ := by
    norm_num [bestOf, bestStep, avgRssi, avgDist, scoreOf, List.replicate,
      List.foldl_cons, List.foldl_nil]
  refine ⟨heval, ?_⟩
  have h := (c5_scoring_window_threshold 2
    [("a", List.replicate 5 ⟨0, -40, 5⟩), ("b", [⟨0, 0, 0⟩])]).2.2.2
    ⟨"a", -40, 5, -50⟩ heval
  exact h.2

/-- One smoothing step moves the signal 8% of the way to the raw reading. -/
lemma iterSmoothed_step (raw : ℚ) (band : String) (s0 : Smooth) (m : ℕ) :
    (iterSmoothed raw band s0 (m + 1)).rssi =
      (iterSmoothed raw band s0 m).rssi +
        (raw - (iterSmoothed raw band s0 m).rssi) * (8 / 100) := by
  simp [iterSmoothed, updateSmoothed, lerp]

/-- C6: with a constant raw reading, the radial-variant `updateSmoothed`
sequence converges geometrically — the residual is multiplied by exactly
0.92 each call, so after `n` calls it is `0.92ⁿ` times the initial
residual — and never overshoots: each output lies between the previous
smoothed value and the raw input. -/
theorem c6_smoothing_geometric_no_overshoot (raw : ℚ) (band : String)
    (s0 : Smooth) (n : ℕ) :
    raw - (iterSmoothed raw band s0 (n + 1)).rssi =
      23 / 25 * (raw - (iterSmoothed raw band s0 n).rssi) ∧
    raw - (iterSmoothed raw band s0 n).rssi =
      (23 / 25) ^ n * (raw - s0.rssi) ∧
    ((iterSmoothed raw band s0 n).rssi ≤ raw →
      (iterSmoothed raw band s0 n).rssi ≤ (iterSmoothed raw band s0 (n + 1)).rssi ∧
      (iterSmoothed raw band s0 (n + 1)).rssi ≤ raw) ∧
    (raw ≤ (iterSmoothed raw band s0 n).rssi →
      (iterSmoothed raw band s0 (n + 1)).rssi ≤ (iterSmoothed raw band s0 n).rssi ∧
      raw ≤ (iterSmoothed raw band s0 (n + 1)).rssi) := by
  have hgeo : ∀ m : ℕ, raw - (iterSmoothed raw band s0 (m + 1)).rssi =
      23 / 25 * (raw - (iterSmoothed raw band s0 m).rssi) := by
    intro m
    rw [iterSmoothed_step]
    ring
  have hcf : ∀ m : ℕ, raw - (iterSmoothed raw band s0 m).rssi =
      (23 / 25) ^ m * (raw - s0.rssi) := by
    intro m
    induction m with
    | zero => simp [iterSmoothed]
    | succ p ihp =>
      rw [hgeo p, ihp, pow_succ]
      ring
  refine ⟨hgeo n, hcf n, fun h => ?_, fun h => ?_⟩
  · rw [iterSmoothed_step]
    constructor <;> nlinarith
  · rw [iterSmoothed_step]
    constructor <;> nlinarith

/-- C6 witness: concrete run with raw −50 dBm from prior state −90 dBm. -/
theorem c6_smoothing_geometric_no_overshoot_witness :
    (-50 : ℚ) - (iterSmoothed (-50) "2.4 GHz" ⟨-90, 5⟩ 2).rssi =
      23 / 25 * ((-50 : ℚ) - (iterSmoothed (-50) "2.4 GHz" ⟨-90, 5⟩ 1).rssi) ∧
    (-50 : ℚ) - (iterSmoothed (-50) "2.4 GHz" ⟨-90, 5⟩ 1).rssi =
      (23 / 25) ^ 1 * ((-50 : ℚ) - Smooth.rssi ⟨-90, 5⟩) ∧
    ((iterSmoothed (-50) "2.4 GHz" ⟨-90, 5⟩ 1).rssi ≤ (-50 : ℚ) →
      (iterSmoothed (-50) "2.4 GHz" ⟨-90, 5⟩ 1).rssi ≤
        (iterSmoothed (-50) "2.4 GHz" ⟨-90, 5⟩ 2).rssi ∧
      (iterSmoothed (-50) "2.4 GHz" ⟨-90, 5⟩ 2).rssi ≤ (-50 : ℚ)) ∧
    ((-50 : ℚ) ≤ (iterSmoothed (-50) "2.4 GHz" ⟨-90, 5⟩ 1).rssi →
      (iterSmoothed (-50) "2.4 GHz" ⟨-90, 5⟩ 2).rssi ≤
        (iterSmoothed (-50) "2.4 GHz" ⟨-90, 5⟩ 1).rssi ∧
      (-50 : ℚ) ≤ (iterSmoothed (-50) "2.4 GHz" ⟨-90, 5⟩ 2).rssi) :=
  c6_smoothing_geometric_no_overshoot (-50) "2.4 GHz" ⟨-90, 5⟩ 1

/-- C8: the trilateration-variant `updateSmoothed` is not a function of its
arguments and prior state alone: its blend target is
`raw + rand(-2, 2) = raw + (-2 + 4u)` for the `Math.random()` draw
`u ∈ [0,1)`, and two admissible draws yield different smoothed signals for
the very same prior state and inputs. -/
theorem c8_update_smoothed_trilat_nondeterministic (prev : Option Smooth)
    (raw : ℚ) (band : String) :
    ∃ u1 u2 : ℚ, (0 ≤ u1 ∧ u1 < 1) ∧ (0 ≤ u2 ∧ u2 < 1) ∧
      (updateSmoothedTrilat prev raw band u1).rssi ≠
        (updateSmoothedTrilat prev raw band u2).rssi := by
  have hval : ∀ u : ℚ, (updateSmoothedTrilat prev raw band u).rssi =
      (prev.getD ⟨raw, rssiToDistance raw band⟩).rssi +
        (raw + (-2 + u * 4) -
          (prev.getD ⟨raw, rssiToDistance raw band⟩).rssi) * (8 / 100) := by
    intro u
    simp only [updateSmoothedTrilat, rand, lerp]
    ring
  refine ⟨0, 1/2, ⟨le_refl 0, by norm_num⟩, ⟨by norm_num, by norm_num⟩, ?_⟩
  rw [hval 0, hval (1/2)]
  intro h
  linarith

/-- The golden-angle increment `π(3 − √5)` is nonzero. -/
lemma goldenAngleIncrement_ne_zero : goldenAngleIncrement ≠ 0 := by
  unfold goldenAngleIncrement
  have h5 : Real.sqrt 5 < 3 := by
    nlinarith [Real.sq_sqrt (show (0 : ℝ) ≤ 5 by norm_num), Real.sqrt_nonneg 5]
  have : (0 : ℝ) < 3 - Real.sqrt 5 := by linarith
  positivity

/-- A successful lookup comes from an entry of the table. -/
lemma lookup_mem {t : List (String × ℝ)} {k : String} {a : ℝ}
    (h : t.lookup k = some a) : (k, a) ∈ t := by
  induction t with
  | nil => simp [List.lookup] at h
  | cons e es ih =>
    rcases e with ⟨k', v⟩
    rw [List.lookup_cons] at h
    by_cases hk : k = k'
    · subst hk
      simp at h
      subst h
      exact List.mem_cons_self _ _
    · have hbeq : (k == k') = false := beq_eq_false_iff_ne.mpr hk
      rw [hbeq] at h
      exact List.mem_cons_of_mem _ (ih h)

/-- `assignStep` preserves the invariant that the entry at index `i` holds
angle `i * goldenAngleIncrement`. -/
lemma assignStep_inv {t : List (String × ℝ)} (key : String)
    (hInv : ∀ i (h : i < t.length), (t.get ⟨i, h⟩).2 = (i : ℝ) * goldenAngleIncrement) :
    ∀ i (h : i < (assignStep t key).length),
      ((assignStep t key).get ⟨i, h⟩).2 = (i : ℝ) * goldenAngleIncrement := by
  by_cases hc : (t.map Prod.fst).contains key
  · have he : assignStep t key = t := by
      unfold assignStep
      rw [if_pos hc]
    rw [he]
    exact hInv
  · have he : assignStep t key =
        t ++ [(key, (t.length : ℝ) * goldenAngleIncrement)] := by
      unfold assignStep
      rw [if_neg hc]
    rw [he]
    intro i h
    rw [List.get_eq_getElem]
    by_cases hi : i < t.length
    · rw [List.getElem_append_left hi]
      have hv := hInv i hi
      rw [List.get_eq_getElem] at hv
      exact hv
    · have hlen : i = t.length := by
        simp only [List.length_append, List.length_singleton] at h
        omega
      subst hlen
      rw [List.getElem_append_right (le_refl _)]
      simp

/-- The angle table built from any appearance sequence satisfies the
index-angle invariant. -/
lemma assignAngles_inv (keys : List String) :
    ∀ i (h : i < (assignAngles keys).length),
      ((assignAngles keys).get ⟨i, h⟩).2 = (i : ℝ) * goldenAngleIncrement := by
  have main : ∀ (ks : List String) (t : List (String × ℝ)),
      (∀ i (h : i < t.length), (t.get ⟨i, h⟩).2 = (i : ℝ) * goldenAngleIncrement) →
      ∀ i (h : i < (ks.foldl assignStep t).length),
        ((ks.foldl assignStep t).get ⟨i, h⟩).2 = (i : ℝ) * goldenAngleIncrement := by
    intro ks
    induction ks with
    | nil => intro t ht; simpa using ht
    | cons k ks ih =>
      intro t ht
      rw [List.foldl_cons]
      exact ih _ (assignStep_inv k ht)
  exact main keys [] (by intro i h; simp at h)

/-- C7: the first-appearance golden-angle rule never assigns the same
angle to two distinct emitters, for every appearance sequence (hence in
particular for any number of emitters up to and beyond 1000). -/
theorem c7_golden_angles_injective (keys : List String) (k1 k2 : String)
    (a1 a2 : ℝ) (hne : k1 ≠ k2)
    (h1 : (assignAngles keys).lookup k1 = some a1)
    (h2 : (assignAngles keys).lookup k2 = some a2) : a1 ≠ a2 := by
  obtain ⟨i1, hi1⟩ := List.mem_iff_get.mp (lookup_mem h1)
  obtain ⟨i2, hi2⟩ := List.mem_iff_get.mp (lookup_mem h2)
  have v1 : a1 = (i1.val : ℝ) * goldenAngleIncrement := by
    have hval := assignAngles_inv keys i1.val i1.isLt
    rw [Fin.eta, hi1] at hval
    simpa using hval
  have v2 : a2 = (i2.val : ℝ) * goldenAngleIncrement := by
    have hval := assignAngles_inv keys i2.val i2.isLt
    rw [Fin.eta, hi2] at hval
    simpa using hval
  intro hEq
  have hcast : (i1.val : ℝ) = (i2.val : ℝ) := by
    have := hEq
    rw [v1, v2] at this
    exact mul_right_cancel₀ goldenAngleIncrement_ne_zero this
  have hidx : i1 = i2 := Fin.ext (Nat.cast_injective hcast)
  rw [hidx, hi2] at hi1
  exact hne (congrArg Prod.fst hi1).symm

/-- C7 witness: with appearance order `["a", "b"]`, the two assigned
angles `0·γ` and `1·γ` differ. -/
theorem c7_golden_angles_injective_witness :
    (assignAngles ["a", "b"]).lookup "a" =
      some (((0 : ℕ) : ℝ) * goldenAngleIncrement) ∧
    (assignAngles ["a", "b"]).lookup "b" =
      some (((1 : ℕ) : ℝ) * goldenAngleIncrement) ∧
    ((0 : ℕ) : ℝ) * goldenAngleIncrement ≠ ((1 : ℕ) : ℝ) * goldenAngleIncrement := by
  have e1 : (assignAngles ["a", "b"]).lookup "a" =
      some (((0 : ℕ) : ℝ) * goldenAngleIncrement) := by
    simp [assignAngles, assignStep, List.lookup]
  have e2 : (assignAngles ["a", "b"]).lookup "b" =
      some (((1 : ℕ) : ℝ) * goldenAngleIncrement) := by
    simp [assignAngles, assignStep, List.lookup]
  exact ⟨e1, e2,
    c7_golden_angles_injective ["a", "b"] "a" "b" _ _ (by decide) e1 e2⟩

/-- Sum of a list after updating one position. -/
lemma sum_list_set (l : List ℝ) (i : ℕ) (a : ℝ) (h : i < l.length) :
    (l.set i a).sum = l.sum - l.get ⟨i, h⟩ + a := by
  induction l generalizing i with
  | nil => simp at h
  | cons x xs ih =>
    cases i with
    | zero => simp [List.set]; ring
    | succ j =>
      have hj : j < xs.length := by simpa using h
      simp only [List.set, List.sum_cons, ih j hj, List.get_eq_getElem,
        List.getElem_cons_succ]
      ring

/-- `relaxPair` never changes the list length. -/
lemma relaxPair_length (l : List Pt) (i j : ℕ) :
    (relaxPair l i j).length = l.length := by
  unfold relaxPair
  dsimp only
  split_ifs with h
  · simp
  · rfl

/-- Sum of `f` over a list after updating two distinct positions. -/
lemma map_sum_double_set (f : Pt → ℝ) (l : List Pt) (i j : ℕ) (hi : i < l.length)
    (hj : j < l.length) (hij : i ≠ j) (A B : Pt) :
    (((l.set i A).set j B).map f).sum =
      (l.map f).sum - f (l.get ⟨i, hi⟩) - f (l.get ⟨j, hj⟩) + f A + f B := by
  rw [List.map_set, List.map_set]
  have hi2 : i < (l.map f).length := by simpa using hi
  have hj2 : j < ((l.map f).set i (f A)).length := by simpa using hj
  have hj3 : j < (l.map f).length := by simpa using hj
  rw [sum_list_set _ j _ hj2]
  rw [sum_list_set _ i _ hi2]
  have h1 : ((l.map f).set i (f A)).get ⟨j, hj2⟩ = (l.map f).get ⟨j, hj3⟩ := by
    rw [List.get_eq_getElem, List.get_eq_getElem]
    exact List.getElem_set_ne hij _
  rw [h1]
  have h2 : (l.map f).get ⟨i, hi2⟩ = f (l.get ⟨i, hi⟩) := by
    rw [List.get_eq_getElem, List.get_eq_getElem, List.getElem_map]
  have h3 : (l.map f).get ⟨j, hj3⟩ = f (l.get ⟨j, hj⟩) := by
    rw [List.get_eq_getElem, List.get_eq_getElem, List.getElem_map]
  rw [h2, h3]
  ring

/-- One pairwise adjustment with valid, distinct indices preserves both
coordinate sums: the two nodes move by equal and opposite offsets. -/
lemma relaxPair_sums (l : List Pt) (i j : ℕ) (hi : i < l.length)
    (hj : j < l.length) (hij : i ≠ j) :
    ((relaxPair l i j).map Pt.x).sum = (l.map Pt.x).sum ∧
    ((relaxPair l i j).map Pt.y).sum = (l.map Pt.y).sum := by
  unfold relaxPair
  dsimp only
  split_ifs with h
  · constructor
    · rw [map_sum_double_set Pt.x l i j hi hj hij]
      rw [List.getD_eq_getElem l default hi, List.getD_eq_getElem l default hj]
      simp only [List.get_eq_getElem]
      ring
    · rw [map_sum_double_set Pt.y l i j hi hj hij]
      rw [List.getD_eq_getElem l default hi, List.getD_eq_getElem l default hj]
      simp only [List.get_eq_getElem]
      ring
  · exact ⟨rfl, rfl⟩

/-- Folding pairwise adjustments over any list of valid, distinct index
pairs preserves length and both coordinate sums. -/
lemma relax_fold_sums (ps : List (ℕ × ℕ)) :
    ∀ l : List Pt, (∀ p ∈ ps, p.1 < l.length ∧ p.2 < l.length ∧ p.1 ≠ p.2) →
      ((ps.foldl (fun acc p => relaxPair acc p.1 p.2) l).length = l.length ∧
       ((ps.foldl (fun acc p => relaxPair acc p.1 p.2) l).map Pt.x).sum =
         (l.map Pt.x).sum ∧
       ((ps.foldl (fun acc p => relaxPair acc p.1 p.2) l).map Pt.y).sum =
         (l.map Pt.y).sum) := by
  induction ps with
  | nil => intro l _; exact ⟨rfl, rfl, rfl⟩
  | cons p ps ih =>
    intro l hvalid
    obtain ⟨hp1, hp2, hpne⟩ := hvalid p (List.mem_cons_self _ _)
    have hlen : (relaxPair l p.1 p.2).length = l.length := relaxPair_length l p.1 p.2
    have hsums := relaxPair_sums l p.1 p.2 hp1 hp2 hpne
    have hrest := ih (relaxPair l p.1 p.2) (by
      intro q hq
      obtain ⟨h1, h2, h3⟩ := hvalid q (List.mem_cons_of_mem _ hq)
      exact ⟨by rw [hlen]; exact h1, by rw [hlen]; exact h2, h3⟩)
    rw [List.foldl_cons]
    exact ⟨hrest.1.trans hlen, hrest.2.1.trans hsums.1, hrest.2.2.trans hsums.2⟩

/-- Membership in the iteration-order pair list gives valid, distinct
indices. -/
lemma pairList_mem {n i j : ℕ} (h : (i, j) ∈ pairList n) :
    i < n ∧ j < n ∧ i ≠ j := by
  simp only [pairList, List.mem_flatMap, List.mem_map, List.mem_filter,
    List.mem_range, decide_eq_true_eq] at h
  obtain ⟨i', hi', j', ⟨hj', hlt⟩, heq⟩ := h
  obtain ⟨rfl, rfl⟩ := Prod.ext_iff.mp heq
  exact ⟨hi', hj', Nat.ne_of_lt hlt⟩

/-- `relaxOnce` preserves length and both coordinate sums. -/
lemma relaxOnce_sums (l : List Pt) :
    (relaxOnce l).length = l.length ∧
    ((relaxOnce l).map Pt.x).sum = (l.map Pt.x).sum ∧
    ((relaxOnce l).map Pt.y).sum = (l.map Pt.y).sum := by
  unfold relaxOnce
  apply relax_fold_sums
  intro p hp
  have := pairList_mem (n := l.length) (i := p.1) (j := p.2) (by simpa using hp)
  exact this

/-- C10: the five-iteration repulsion relaxation leaves the number of
nodes, the coordinate sums, and hence the centroid (mean x and mean y) of
the node set unchanged, for every input node list. -/
theorem c10_relaxation_preserves_centroid (nodes : List Pt) :
    (relaxNodes nodes).length = nodes.length ∧
    ((relaxNodes nodes).map Pt.x).sum = (nodes.map Pt.x).sum ∧
    ((relaxNodes nodes).map Pt.y).sum = (nodes.map Pt.y).sum ∧
    ((relaxNodes nodes).map Pt.x).sum / ((relaxNodes nodes).length : ℝ) =
      (nodes.map Pt.x).sum / (nodes.length : ℝ) ∧
    ((relaxNodes nodes).map Pt.y).sum / ((relaxNodes nodes).length : ℝ) =
      (nodes.map Pt.y).sum / (nodes.length : ℝ) := by
  have main : ∀ (k : ℕ) (l : List Pt),
      (relaxIter k l).length = l.length ∧
      ((relaxIter k l).map Pt.x).sum = (l.map Pt.x).sum ∧
      ((relaxIter k l).map Pt.y).sum = (l.map Pt.y).sum := by
    intro k
    induction k with
    | zero => intro l; exact ⟨rfl, rfl, rfl⟩
    | succ m ih =>
      intro l
      have h1 := relaxOnce_sums l
      have h2 := ih (relaxOnce l)
      exact ⟨h2.1.trans h1.1, h2.2.1.trans h1.2.1, h2.2.2.trans h1.2.2⟩
  obtain ⟨hl, hx, hy⟩ := main 5 nodes
  unfold relaxNodes
  exact ⟨hl, hx, hy, by rw [hl, hx], by rw [hl, hy]⟩

end WifiHeatmap
